import Mathlib

/-!
Verification of the `pr-kind-labeler` reconciliation engine
(`internal/labeler/labeler.go`, `pkg/kinds/kinds.go`, `pkg/labels/labels.go`).

Strings are embedded as `List Char`.  The three regular expressions of the
source (`commentRE`, `kindRE`, `releaseNoteRE`) are embedded as executable
scanners whose behaviour matches RE2 semantics on the concrete patterns:

* `commentRE = (?s)<!--.*?-->`, used with `ReplaceAllString(body, "")`:
  each leftmost `<!--` that has a later `-->` is deleted together with the
  (lazily minimal) span up to and including the first `-->`.
* `kindRE`, i.e. `(?im)` anchor, literal `/kind`, `\s+`, then a captured
  run of the class (letters, digits, underscore, slash, hyphen), with
  `FindAllStringSubmatch`:
  anchored at start of text or right after a newline; `\s` is RE2's
  `[\t\n\f\r ]`; the character class is case-insensitive (folded over
  ASCII); `\s+` and the token class are disjoint, so greedy matching takes
  the maximal whitespace run and then the maximal token run; scanning
  resumes after each match.
* `releaseNoteRE = (?s)` ```release-note\s*(.*?)\s*``` with
  `FindStringSubmatch`: the match starts at the first occurrence of the
  literal ```release-note; the first `\s*` greedily takes the maximal
  whitespace run; the lazy group grows until the closing ``` is reachable
  through whitespace only.  If the first occurrence has no closing fence,
  no later occurrence can (a later opening fence would itself provide a
  closing ```), so the overall search fails.

The scanners that jump over a matched span (`stripGo`, `kindScan`) take a
fuel argument bounded below by the input length; every step consumes at
least one character, so the fuel is never exhausted on the initial call.
-/

namespace PRKindLabeler

/-- Strings of the Go source, embedded as lists of characters. -/
abbrev Str := List Char

/-- Coerce a Lean string literal to the embedding. -/
def str (s : String) : Str := s.data

/-! ### Label and kind constants (`pkg/labels`, `pkg/kinds`) -/

/-- Constant `labels.InvalidKindLabel`. -/
def invalidKindLabel : Str := str "do-not-merge/kind-invalid"

/-- Constant `labels.InvalidReleaseNoteLabel`. -/
def invalidReleaseNoteLabel : Str := str "do-not-merge/release-note-invalid"

/-- Constant `labels.ReleaseNoteLabel`. -/
def releaseNoteLabel : Str := str "release-note"

/-- Constant `labels.DeprecatedReleaseNoteLabel`. -/
def deprecatedReleaseNoteLabel : Str := str "release-note-needed"

/-- Constant `labels.ReleaseNoteNoneLabel`. -/
def releaseNoteNoneLabel : Str := str "release-note-none"

/-- The `"kind/"` label namespace used by `syncKindLabels`. -/
def kindNS : Str := str "kind/"

/-- The keys of `kinds.SupportedKinds`, in declaration order of
`pkg/kinds/kinds.go`. -/
def supportedKindsList : List Str :=
  [str "design", str "deprecation", str "feature", str "fix",
   str "breaking_change", str "documentation", str "cleanup", str "flake"]

/-- Membership in `kinds.SupportedKinds` (a `map[string]bool` holding
`true` at exactly these keys). -/
def supportedKinds (k : Str) : Bool := supportedKindsList.contains k

/-- Map `kinds.DeprecatedKindMap`: old kind value to new kind value. -/
def deprecatedKindMap (k : Str) : Option Str :=
  if k = str "new_feature" then some (str "feature")
  else if k = str "bug_fix" then some (str "fix")
  else none

/-! ### Character classes and casing -/

/-- RE2's `\s`, i.e. `[\t\n\f\r ]`. -/
def goWS (c : Char) : Bool :=
  c = '\t' || c = '\n' || c = '\x0c' || c = '\r' || c = ' '

/-- The token class of `kindRE` (letters, digits, underscore, slash,
hyphen) under the `(?i)` flag (ASCII fold). -/
def isKindTokenChar (c : Char) : Bool :=
  ('a' ≤ c && c ≤ 'z') || ('A' ≤ c && c ≤ 'Z') || ('0' ≤ c && c ≤ '9') ||
  c = '_' || c = '/' || c = '-'

/-- ASCII lower-casing of one character (`strings.ToLower` restricted to
the ASCII range; the captured kind tokens are ASCII by construction). -/
def lowerChar (c : Char) : Char :=
  if 'A' ≤ c && c ≤ 'Z' then Char.ofNat (c.toNat + 32) else c

/-- Go `strings.ToLower` on the embedding. -/
def lowerStr (s : Str) : Str := s.map lowerChar

/-- Go `unicode.IsSpace`, used by `strings.TrimSpace`. -/
def uniWS (c : Char) : Bool :=
  c = '\t' || c = '\n' || c = '\x0b' || c = '\x0c' || c = '\r' || c = ' ' ||
  c = '\u0085' || c = '\u00a0' || c = '\u1680' ||
  ('\u2000' ≤ c && c ≤ '\u200a') ||
  c = '\u2028' || c = '\u2029' || c = '\u202f' || c = '\u205f' || c = '\u3000'

/-- Go `strings.TrimSpace`. -/
def trimSpace (s : Str) : Str :=
  ((s.dropWhile uniWS).reverse.dropWhile uniWS).reverse

/-! ### `commentRE.ReplaceAllString(body, "")` -/

/-- Skip to just past the first `-->` in `s`; `none` when there is none. -/
def dropToCommentClose : Str → Option Str
  | [] => none
  | c :: rest =>
    if (c :: rest).take 3 = str "-->" then some ((c :: rest).drop 3)
    else dropToCommentClose rest

/-- Comment stripping with fuel (the fuel never runs out when it is at
least the length of the input, since every step consumes a character). -/
def stripGo : Nat → Str → Str
  | 0, s => s
  | _ + 1, [] => []
  | fuel + 1, c :: rest =>
    if (c :: rest).take 4 = str "<!--" then
      match dropToCommentClose ((c :: rest).drop 4) with
      | some after => stripGo fuel after
      | none => c :: stripGo fuel rest
    else c :: stripGo fuel rest

/-- Embeds `commentRE.ReplaceAllString(body, "")`. -/
def stripComments (s : Str) : Str := stripGo s.length s

/-! ### `kindRE.FindAllStringSubmatch` -/

/-- Try to match `kindRE` without its anchor at the head of `s`;
return the raw captured token and the rest of the input after the match. -/
def matchKindAt (s : Str) : Option (Str × Str) :=
  if lowerStr (s.take 5) = str "/kind" then
    let t := s.drop 5
    if t.takeWhile goWS = [] then none
    else
      let u := t.dropWhile goWS
      let tok := u.takeWhile isKindTokenChar
      if tok = [] then none
      else some (tok, u.drop tok.length)
  else none

/-- The scan underlying `kindRE.FindAllStringSubmatch`: `atStart` records
whether the current position is the start of the text or follows a
newline (the `(?m)` anchor `^`). -/
def kindScan : Nat → Str → Bool → List Str
  | 0, _, _ => []
  | _ + 1, [], _ => []
  | fuel + 1, c :: rest, atStart =>
    if atStart then
      match matchKindAt (c :: rest) with
      | some (tok, after) => tok :: kindScan fuel after false
      | none => kindScan fuel rest (c = '\n')
    else kindScan fuel rest (c = '\n')

/-- All raw tokens captured by `kindRE` over the body, in match order. -/
def kindTokens (s : Str) : List Str := kindScan s.length s true

/-- Insertion into the `parsedKinds` set, keeping first-insertion order. -/
def addOnce (l : List Str) (x : Str) : List Str :=
  if x ∈ l then l else l ++ [x]

/-- The loop body of `extractKinds`: lower-case the captured token and,
when it is a deprecated kind, insert the mapped new kind instead. -/
def addKind (acc : List Str) (rawTok : Str) : List Str :=
  let k := lowerStr rawTok
  match deprecatedKindMap k with
  | some newKind => addOnce acc newKind
  | none => addOnce acc k

/-- The canonical form of one lower-cased kind token (deprecated values
rewritten through `kinds.DeprecatedKindMap`). -/
def canonKind (k : Str) : Str :=
  match deprecatedKindMap k with
  | some newKind => newKind
  | none => k

/-- Function `extractKinds`: collect the canonical form of every captured token
into a set (a duplicate-free list in first-insertion order). -/
def extractKinds (body : Str) : List Str :=
  (kindTokens body).foldl addKind []

/-! ### `releaseNoteRE.FindStringSubmatch` -/

/-- The lazy capture of `releaseNoteRE`, given the input after the opening
fence and after the maximal whitespace run: grow the capture until the
closing ``` is reachable through whitespace only. -/
def capRN : Str → Option Str
  | [] => none
  | c :: rest =>
    if str "```" <+: ((c :: rest).dropWhile goWS) then some []
    else (capRN rest).map (fun cap => c :: cap)

/-- Embeds `releaseNoteRE.FindStringSubmatch(body)`: capture of group 1 of the
first match, or `none` when the pattern does not match. -/
def releaseNoteCapture : Str → Option Str
  | [] => none
  | c :: rest =>
    if str "```release-note" <+: (c :: rest) then
      capRN (((c :: rest).drop 15).dropWhile goWS)
    else releaseNoteCapture rest

/-! ### Labeler state and validation errors -/

/-- The mutable maps of the `labeler` struct: `currentMap` (the label
snapshot fetched by `fetchLabels`), `labelsToAdd`, `labelsToRemove`,
all `map[string]bool` used as sets. -/
structure LState where
  currentMap : Finset Str
  labelsToAdd : Finset Str
  labelsToRemove : Finset Str
deriving DecidableEq

/-- The state right after `New` and a successful `fetchLabels`. -/
def initState (cur : Finset Str) : LState := ⟨cur, ∅, ∅⟩

/-- The validation errors produced by `verifyKinds` and
`processReleaseNotes`, one constructor per `fmt.Errorf` site. -/
inductive LErr
  | noKind
  | invalidKind (k : Str)
  | missingNote
  | emptyNote
deriving DecidableEq

/-- Render a validation error to its Go message.  `%v` of the supported
kinds iterates a Go map, whose key order is unspecified; the rendering
fixes the declaration order of `pkg/kinds/kinds.go`.  `%q` is rendered
as plain double quotes (the concrete arguments need no escaping). -/
def renderLErr : LErr → Str
  | .noKind =>
    str "no /kind labels found, labeling \"do-not-merge/kind-invalid\". supported kinds: [" ++
      (supportedKindsList.intersperse (str " ")).flatten ++ str "]"
  | .invalidKind k =>
    str "invalid /kind \"" ++ k ++
      str "\" detected, labeling \"do-not-merge/kind-invalid\". supported kinds: [" ++
      (supportedKindsList.intersperse (str " ")).flatten ++ str "]"
  | .missingNote =>
    str "missing or empty ```release-note``` block; please add your line. If no release notes, add:\n```release-note\nNONE\n```"
  | .emptyNote =>
    str "missing or empty ```release-note``` block; please add your line or 'NONE'"

/-- Embeds `if !l.currentMap[L] then l.labelsToAdd[L] = true`. -/
def addUnlessPresent (st : LState) (L : Str) : LState :=
  if L ∈ st.currentMap then st
  else { st with labelsToAdd := insert L st.labelsToAdd }

/-- Embeds `if l.currentMap[L] then l.labelsToRemove[L] = true`. -/
def removeIfPresent (st : LState) (L : Str) : LState :=
  if L ∈ st.currentMap then { st with labelsToRemove := insert L st.labelsToRemove }
  else st

/-! ### Kind validation and synchronization -/

/-- Embeds `verifyKinds`.  The Go `for k := range extractedKinds` iterates the
set in unspecified order; here `ks` is the set's enumeration (the
first-insertion order produced by `extractKinds`). -/
def verifyKinds (ks : List Str) (st : LState) : LState × Option LErr :=
  if ks = [] then (addUnlessPresent st invalidKindLabel, some .noKind)
  else
    match ks.find? (fun k => !supportedKinds k) with
    | some k => (addUnlessPresent st invalidKindLabel, some (.invalidKind k))
    | none => (removeIfPresent st invalidKindLabel, none)

/-- The removal condition of the `remove stale labels` loop of
`syncKindLabels`, for a snapshot label `kind/` ++ `k`:
deprecated-migration case first, then the stale case. -/
def staleKindCond (ks : List Str) (k : Str) : Bool :=
  match deprecatedKindMap k with
  | some newKindEquivalent =>
    if newKindEquivalent ∈ ks then true else !(k ∈ ks)
  | none => !(k ∈ ks)

/-- Embeds `syncKindLabels`: add `kind/` labels for extracted kinds missing from
the snapshot; remove snapshot `kind/` labels that are deprecated with a
migrated equivalent extracted, or whose kind was not extracted. -/
def syncKindLabels (ks : List Str) (st : LState) : LState :=
  let adds := ((ks.filter (fun k => kindNS ++ k ∉ st.currentMap)).map
    (fun k => kindNS ++ k)).toFinset
  let removes := st.currentMap.filter
    (fun label => kindNS <+: label ∧ staleKindCond ks (label.drop 5) = true)
  { st with labelsToAdd := st.labelsToAdd ∪ adds,
            labelsToRemove := st.labelsToRemove ∪ removes }

/-- Embeds `processKindLabels`: extract, verify (returning early on a
validation error), then synchronize. -/
def processKindLabels (body : Str) (st : LState) : LState × Option LErr :=
  let ks := extractKinds body
  match verifyKinds ks st with
  | (st', some e) => (st', some e)
  | (st', none) => (syncKindLabels ks st', none)

/-! ### Release-note validation -/

/-- Embeds `processReleaseNotes`. -/
def processReleaseNotes (body : Str) (st : LState) : LState × Option LErr :=
  let st0 := removeIfPresent st deprecatedReleaseNoteLabel
  match releaseNoteCapture body with
  | none =>
    let st1 := addUnlessPresent st0 invalidReleaseNoteLabel
    let st2 := removeIfPresent st1 releaseNoteLabel
    let st3 := removeIfPresent st2 releaseNoteNoneLabel
    (st3, some .missingNote)
  | some cap =>
    let entry := trimSpace cap
    if entry = [] then
      let st1 := addUnlessPresent st0 invalidReleaseNoteLabel
      let st2 := removeIfPresent st1 releaseNoteLabel
      let st3 := removeIfPresent st2 releaseNoteNoneLabel
      (st3, some .emptyNote)
    else if lowerStr entry = str "none" then
      let st1 := addUnlessPresent st0 releaseNoteNoneLabel
      let st2 := removeIfPresent st1 invalidReleaseNoteLabel
      let st3 := removeIfPresent st2 releaseNoteLabel
      (st3, none)
    else
      let st1 := addUnlessPresent st0 releaseNoteLabel
      let st2 := removeIfPresent st1 invalidReleaseNoteLabel
      let st3 := removeIfPresent st2 releaseNoteNoneLabel
      (st3, none)

/-! ### The reconciliation pass and the remote sync -/

/-- One reconciliation pass of `ProcessPR` up to (not including) the
remote sync: strip HTML comments, then run both validators on the state
seeded from the snapshot, collecting the non-nil errors in order. -/
def processPRCore (body : Str) (cur : Finset Str) : LState × List LErr :=
  let sanitizedBody := stripComments body
  let (st1, e1) := processKindLabels sanitizedBody (initState cur)
  let (st2, e2) := processReleaseNotes sanitizedBody st1
  (st2, e1.toList ++ e2.toList)

/-- The Label-Store Gateway: the outcome of each remote call, `none` for
success and `some msg` for a failure with message `msg`. -/
structure Gateway where
  addErr : List Str → Option Str
  removeErr : Str → Option Str

/-- A remote mutation issued by `syncLabels`. -/
inductive RemoteCall
  | add (labels : List Str)
  | remove (label : Str)
deriving DecidableEq

/-- A remote-call failure collected by `syncLabels`
(`failed to add labels %q: %w` / `failed to remove label %q: %w`). -/
inductive SyncErr
  | addFailed (labels : List Str) (msg : Str)
  | removeFailed (label : Str) (msg : Str)
deriving DecidableEq

/-- Go `sort.Strings` over the elements of a label set (byte-lexicographic
order, which on the embedding is the lexicographic order on `List Char`). -/
def sortLabels (s : Finset Str) : List Str := s.sort (· ≤ ·)

/-- Embeds `syncLabels`: one add call carrying the whole sorted `labelsToAdd`
batch, then one remove call per sorted `labelsToRemove` element; every
call is attempted and its failure, if any, collected. -/
def syncLabels (gw : Gateway) (st : LState) : List RemoteCall × List SyncErr :=
  let labelsToAdd := sortLabels st.labelsToAdd
  let addErrs :=
    match gw.addErr labelsToAdd with
    | some msg => [SyncErr.addFailed labelsToAdd msg]
    | none => []
  let labelsToRemove := sortLabels st.labelsToRemove
  let removeErrs := labelsToRemove.filterMap
    (fun label => (gw.removeErr label).map (SyncErr.removeFailed label))
  (RemoteCall.add labelsToAdd :: labelsToRemove.map RemoteCall.remove,
   addErrs ++ removeErrs)

/-- Embeds `ProcessPR` after a successful `fetchLabels` returning the snapshot
`cur`: the final state, the remote calls issued, and the validation and
remote errors whose join it returns (`joinErrs` returns nil exactly when
no error was collected). -/
def ProcessPR (gw : Gateway) (cur : Finset Str) (body : Str)
    (syncEnabled : Bool) : LState × List RemoteCall × List LErr × List SyncErr :=
  let (st, verrs) := processPRCore body cur
  if syncEnabled then
    let (calls, serrs) := syncLabels gw st
    (st, calls, verrs, serrs)
  else (st, [], verrs, [])

/-! ### Derived classifiers used in the statements -/

/-- The validation outcome of `verifyKinds` as a function of the
canonical kind set (in its enumeration order). -/
def kindErrOf (ks : List Str) : Option LErr :=
  if ks = [] then some .noKind
  else (ks.find? (fun k => !supportedKinds k)).map .invalidKind

/-- The four terminal classifications of the release-note block. -/
inductive RNClass
  | missing
  | empty
  | noneEntry
  | valid
deriving DecidableEq

/-- Classify the release-note block of a sanitized body. -/
def rnClass (body : Str) : RNClass :=
  match releaseNoteCapture body with
  | none => .missing
  | some cap =>
    let entry := trimSpace cap
    if entry = [] then .empty
    else if lowerStr entry = str "none" then .noneEntry
    else .valid

/-- The release-note family label asserted by each classification. -/
def rnTarget : RNClass → Str
  | .missing => invalidReleaseNoteLabel
  | .empty => invalidReleaseNoteLabel
  | .noneEntry => releaseNoteNoneLabel
  | .valid => releaseNoteLabel

/-- The two other release-note family labels, removed when present. -/
def rnOthers : RNClass → List Str
  | .missing => [releaseNoteLabel, releaseNoteNoneLabel]
  | .empty => [releaseNoteLabel, releaseNoteNoneLabel]
  | .noneEntry => [invalidReleaseNoteLabel, releaseNoteLabel]
  | .valid => [invalidReleaseNoteLabel, releaseNoteNoneLabel]

/-- The validation error of `processReleaseNotes` per classification. -/
def rnErrOf : RNClass → Option LErr
  | .missing => some .missingNote
  | .empty => some .emptyNote
  | .noneEntry => none
  | .valid => none

/-! ### Characterization of the helper state updates -/

theorem addUnlessPresent_currentMap (st : LState) (X : Str) :
    (addUnlessPresent st X).currentMap = st.currentMap := by
  unfold addUnlessPresent; split <;> rfl

theorem removeIfPresent_currentMap (st : LState) (X : Str) :
    (removeIfPresent st X).currentMap = st.currentMap := by
  unfold removeIfPresent; split <;> rfl

theorem mem_toAdd_addUnlessPresent (st : LState) (X L : Str) :
    L ∈ (addUnlessPresent st X).labelsToAdd ↔
      L ∈ st.labelsToAdd ∨ (L = X ∧ X ∉ st.currentMap) := by
  unfold addUnlessPresent; split <;> simp_all [Finset.mem_insert] <;> tauto

theorem toRemove_addUnlessPresent (st : LState) (X : Str) :
    (addUnlessPresent st X).labelsToRemove = st.labelsToRemove := by
  unfold addUnlessPresent; split <;> rfl

theorem mem_toRemove_removeIfPresent (st : LState) (X L : Str) :
    L ∈ (removeIfPresent st X).labelsToRemove ↔
      L ∈ st.labelsToRemove ∨ (L = X ∧ X ∈ st.currentMap) := by
  unfold removeIfPresent; split <;> simp_all [Finset.mem_insert] <;> tauto

theorem toAdd_removeIfPresent (st : LState) (X : Str) :
    (removeIfPresent st X).labelsToAdd = st.labelsToAdd := by
  unfold removeIfPresent; split <;> rfl

/-! ### Characterization of the kind phase -/

theorem verifyKinds_err (ks : List Str) (st : LState) :
    (verifyKinds ks st).2 = kindErrOf ks := by
  unfold verifyKinds kindErrOf
  split
  · rfl
  · rcases h : ks.find? (fun k => !supportedKinds k) <;> simp [h]

theorem verifyKinds_st_fail (ks : List Str) (st : LState)
    (h : kindErrOf ks ≠ none) :
    (verifyKinds ks st).1 = addUnlessPresent st invalidKindLabel := by
  unfold verifyKinds
  unfold kindErrOf at h
  split
  · rfl
  · rcases hf : ks.find? (fun k => !supportedKinds k) <;> simp_all

theorem verifyKinds_st_ok (ks : List Str) (st : LState)
    (h : kindErrOf ks = none) :
    (verifyKinds ks st).1 = removeIfPresent st invalidKindLabel := by
  unfold verifyKinds
  unfold kindErrOf at h
  split
  · simp_all
  · rcases hf : ks.find? (fun k => !supportedKinds k) <;> simp_all

theorem syncKindLabels_currentMap (ks : List Str) (st : LState) :
    (syncKindLabels ks st).currentMap = st.currentMap := rfl

theorem mem_toAdd_syncKindLabels (ks : List Str) (st : LState) (L : Str) :
    L ∈ (syncKindLabels ks st).labelsToAdd ↔
      L ∈ st.labelsToAdd ∨
      ∃ k ∈ ks, kindNS ++ k ∉ st.currentMap ∧ L = kindNS ++ k := by
  unfold syncKindLabels
  simp [List.mem_filter, List.mem_map, List.mem_toFinset]
  tauto

theorem mem_toRemove_syncKindLabels (ks : List Str) (st : LState) (L : Str) :
    L ∈ (syncKindLabels ks st).labelsToRemove ↔
      L ∈ st.labelsToRemove ∨
      (L ∈ st.currentMap ∧ kindNS <+: L ∧ staleKindCond ks (L.drop 5) = true) := by
  unfold syncKindLabels
  simp [Finset.mem_filter]

theorem processKindLabels_currentMap (b : Str) (st : LState) :
    ((processKindLabels b st).1).currentMap = st.currentMap := by
  simp only [processKindLabels]
  rcases h : verifyKinds (extractKinds b) st with ⟨st', e⟩
  have he : e = kindErrOf (extractKinds b) := by
    have hv := verifyKinds_err (extractKinds b) st; rw [h] at hv; exact hv
  rcases e with _ | e
  · have hst : st' = removeIfPresent st invalidKindLabel := by
      have hv := verifyKinds_st_ok (extractKinds b) st he.symm
      rw [h] at hv; exact hv
    subst hst
    simp [syncKindLabels_currentMap, removeIfPresent_currentMap]
  · have hne : kindErrOf (extractKinds b) ≠ none := by rw [← he]; simp
    have hst : st' = addUnlessPresent st invalidKindLabel := by
      have hv := verifyKinds_st_fail (extractKinds b) st hne
      rw [h] at hv; exact hv
    subst hst
    simp [addUnlessPresent_currentMap]

theorem processKindLabels_err (b : Str) (st : LState) :
    (processKindLabels b st).2 = kindErrOf (extractKinds b) := by
  simp only [processKindLabels]
  rcases h : verifyKinds (extractKinds b) st with ⟨st', e⟩
  have he : e = kindErrOf (extractKinds b) := by
    have hv := verifyKinds_err (extractKinds b) st; rw [h] at hv; exact hv
  rcases e with _ | e <;> simp [← he]

theorem mem_toAdd_processKindLabels (b : Str) (st : LState) (L : Str) :
    L ∈ ((processKindLabels b st).1).labelsToAdd ↔
      L ∈ st.labelsToAdd ∨
      (kindErrOf (extractKinds b) ≠ none ∧ L = invalidKindLabel ∧
        invalidKindLabel ∉ st.currentMap) ∨
      (kindErrOf (extractKinds b) = none ∧
        ∃ k ∈ extractKinds b, kindNS ++ k ∉ st.currentMap ∧ L = kindNS ++ k) := by
  simp only [processKindLabels]
  rcases h : verifyKinds (extractKinds b) st with ⟨st', e⟩
  have he : e = kindErrOf (extractKinds b) := by
    have hv := verifyKinds_err (extractKinds b) st; rw [h] at hv; exact hv
  rcases e with _ | e
  · have hst : st' = removeIfPresent st invalidKindLabel := by
      have hv := verifyKinds_st_ok (extractKinds b) st he.symm
      rw [h] at hv; exact hv
    subst hst
    rw [mem_toAdd_syncKindLabels, toAdd_removeIfPresent, removeIfPresent_currentMap]
    simp [← he]
  · have hne : kindErrOf (extractKinds b) ≠ none := by rw [← he]; simp
    have hst : st' = addUnlessPresent st invalidKindLabel := by
      have hv := verifyKinds_st_fail (extractKinds b) st hne
      rw [h] at hv; exact hv
    subst hst
    rw [mem_toAdd_addUnlessPresent]
    simp [← he]

theorem mem_toRemove_processKindLabels (b : Str) (st : LState) (L : Str) :
    L ∈ ((processKindLabels b st).1).labelsToRemove ↔
      L ∈ st.labelsToRemove ∨
      (kindErrOf (extractKinds b) = none ∧
        ((L = invalidKindLabel ∧ invalidKindLabel ∈ st.currentMap) ∨
         (L ∈ st.currentMap ∧ kindNS <+: L ∧
           staleKindCond (extractKinds b) (L.drop 5) = true))) := by
  simp only [processKindLabels]
  rcases h : verifyKinds (extractKinds b) st with ⟨st', e⟩
  have he : e = kindErrOf (extractKinds b) := by
    have hv := verifyKinds_err (extractKinds b) st; rw [h] at hv; exact hv
  rcases e with _ | e
  · have hst : st' = removeIfPresent st invalidKindLabel := by
      have hv := verifyKinds_st_ok (extractKinds b) st he.symm
      rw [h] at hv; exact hv
    subst hst
    rw [mem_toRemove_syncKindLabels, mem_toRemove_removeIfPresent,
      removeIfPresent_currentMap]
    simp [← he]
    tauto
  · have hne : kindErrOf (extractKinds b) ≠ none := by rw [← he]; simp
    have hst : st' = addUnlessPresent st invalidKindLabel := by
      have hv := verifyKinds_st_fail (extractKinds b) st hne
      rw [h] at hv; exact hv
    subst hst
    rw [toRemove_addUnlessPresent]
    simp [← he]

/-! ### Characterization of the release-note phase -/

theorem processReleaseNotes_currentMap (b : Str) (st : LState) :
    ((processReleaseNotes b st).1).currentMap = st.currentMap := by
  simp only [processReleaseNotes]
  rcases h : releaseNoteCapture b with _ | cap
  · simp [removeIfPresent_currentMap, addUnlessPresent_currentMap]
  · dsimp only
    split_ifs <;>
      simp [removeIfPresent_currentMap, addUnlessPresent_currentMap]

theorem processReleaseNotes_err (b : Str) (st : LState) :
    (processReleaseNotes b st).2 = rnErrOf (rnClass b) := by
  simp only [processReleaseNotes, rnClass]
  rcases h : releaseNoteCapture b with _ | cap
  · rfl
  · dsimp only
    split_ifs <;> rfl

theorem mem_toAdd_processReleaseNotes (b : Str) (st : LState) (L : Str) :
    L ∈ ((processReleaseNotes b st).1).labelsToAdd ↔
      L ∈ st.labelsToAdd ∨
      (L = rnTarget (rnClass b) ∧ L ∉ st.currentMap) := by
  simp only [processReleaseNotes, rnClass]
  rcases h : releaseNoteCapture b with _ | cap
  · simp only [toAdd_removeIfPresent, mem_toAdd_addUnlessPresent,
      removeIfPresent_currentMap, rnTarget]
    constructor
    · rintro (hL | ⟨rfl, hc⟩) <;> tauto
    · rintro (hL | ⟨rfl, hc⟩) <;> tauto
  · dsimp only
    split_ifs with h1 h2 <;>
      simp only [toAdd_removeIfPresent, mem_toAdd_addUnlessPresent,
        removeIfPresent_currentMap, rnTarget] <;>
      (constructor
       · rintro (hL | ⟨rfl, hc⟩) <;> tauto
       · rintro (hL | ⟨rfl, hc⟩) <;> tauto)

theorem mem_toRemove_processReleaseNotes (b : Str) (st : LState) (L : Str) :
    L ∈ ((processReleaseNotes b st).1).labelsToRemove ↔
      L ∈ st.labelsToRemove ∨
      (L ∈ deprecatedReleaseNoteLabel :: rnOthers (rnClass b) ∧
        L ∈ st.currentMap) := by
  simp only [processReleaseNotes, rnClass]
  rcases h : releaseNoteCapture b with _ | cap
  · simp only [mem_toRemove_removeIfPresent, toRemove_addUnlessPresent,
      removeIfPresent_currentMap, addUnlessPresent_currentMap, rnOthers,
      List.mem_cons, List.not_mem_nil]
    constructor
    · rintro (((hL | ⟨rfl, hc⟩) | ⟨rfl, hc⟩) | ⟨rfl, hc⟩) <;> tauto
    · rintro (hL | ⟨(rfl | rfl | rfl | hcontra), hc⟩) <;> tauto
  · dsimp only
    split_ifs with h1 h2 <;>
      simp only [mem_toRemove_removeIfPresent, toRemove_addUnlessPresent,
        removeIfPresent_currentMap, addUnlessPresent_currentMap, rnOthers,
        List.mem_cons, List.not_mem_nil] <;>
      (constructor
       · rintro (((hL | ⟨rfl, hc⟩) | ⟨rfl, hc⟩) | ⟨rfl, hc⟩) <;> tauto
       · rintro (hL | ⟨(rfl | rfl | rfl | hcontra), hc⟩) <;> tauto)

/-! ### Characterization of the full reconciliation pass -/

theorem processPRCore_currentMap (b : Str) (cur : Finset Str) :
    ((processPRCore b cur).1).currentMap = cur := by
  simp only [processPRCore]
  rcases h1 : processKindLabels (stripComments b) (initState cur) with ⟨st1, e1⟩
  rcases h2 : processReleaseNotes (stripComments b) st1 with ⟨st2, e2⟩
  have hm2 : st2.currentMap = st1.currentMap := by
    have h := processReleaseNotes_currentMap (stripComments b) st1
    rw [h2] at h; exact h
  have hm1 : st1.currentMap = cur := by
    have h := processKindLabels_currentMap (stripComments b) (initState cur)
    rw [h1] at h; exact h
  dsimp only
  rw [hm2, hm1]

theorem processPRCore_errs (b : Str) (cur : Finset Str) :
    (processPRCore b cur).2 =
      (kindErrOf (extractKinds (stripComments b))).toList ++
      (rnErrOf (rnClass (stripComments b))).toList := by
  simp only [processPRCore]
  rcases h1 : processKindLabels (stripComments b) (initState cur) with ⟨st1, e1⟩
  rcases h2 : processReleaseNotes (stripComments b) st1 with ⟨st2, e2⟩
  have he1 : e1 = kindErrOf (extractKinds (stripComments b)) := by
    have h := processKindLabels_err (stripComments b) (initState cur)
    rw [h1] at h; exact h
  have he2 : e2 = rnErrOf (rnClass (stripComments b)) := by
    have h := processReleaseNotes_err (stripComments b) st1
    rw [h2] at h; exact h
  dsimp only
  rw [he1, he2]

theorem mem_toAdd_processPRCore (b : Str) (cur : Finset Str) (L : Str) :
    L ∈ ((processPRCore b cur).1).labelsToAdd ↔
      (kindErrOf (extractKinds (stripComments b)) ≠ none ∧
        L = invalidKindLabel ∧ invalidKindLabel ∉ cur) ∨
      (kindErrOf (extractKinds (stripComments b)) = none ∧
        ∃ k ∈ extractKinds (stripComments b), kindNS ++ k ∉ cur ∧ L = kindNS ++ k) ∨
      (L = rnTarget (rnClass (stripComments b)) ∧ L ∉ cur) := by
  simp only [processPRCore]
  rcases h1 : processKindLabels (stripComments b) (initState cur) with ⟨st1, e1⟩
  rcases h2 : processReleaseNotes (stripComments b) st1 with ⟨st2, e2⟩
  have hm1 : st1.currentMap = cur := by
    have h := processKindLabels_currentMap (stripComments b) (initState cur)
    rw [h1] at h; exact h
  have hA2 : L ∈ st2.labelsToAdd ↔
      L ∈ st1.labelsToAdd ∨
      (L = rnTarget (rnClass (stripComments b)) ∧ L ∉ st1.currentMap) := by
    have h := mem_toAdd_processReleaseNotes (stripComments b) st1 L
    rw [h2] at h; exact h
  have hA1 : L ∈ st1.labelsToAdd ↔
      (kindErrOf (extractKinds (stripComments b)) ≠ none ∧
        L = invalidKindLabel ∧ invalidKindLabel ∉ cur) ∨
      (kindErrOf (extractKinds (stripComments b)) = none ∧
        ∃ k ∈ extractKinds (stripComments b), kindNS ++ k ∉ cur ∧ L = kindNS ++ k) := by
    have h := mem_toAdd_processKindLabels (stripComments b) (initState cur) L
    rw [h1] at h
    simpa [initState] using h
  dsimp only
  rw [hA2, hA1, hm1, or_assoc]

theorem mem_toRemove_processPRCore (b : Str) (cur : Finset Str) (L : Str) :
    L ∈ ((processPRCore b cur).1).labelsToRemove ↔
      (kindErrOf (extractKinds (stripComments b)) = none ∧
        ((L = invalidKindLabel ∧ invalidKindLabel ∈ cur) ∨
         (L ∈ cur ∧ kindNS <+: L ∧
           staleKindCond (extractKinds (stripComments b)) (L.drop 5) = true))) ∨
      (L ∈ deprecatedReleaseNoteLabel :: rnOthers (rnClass (stripComments b)) ∧
        L ∈ cur) := by
  simp only [processPRCore]
  rcases h1 : processKindLabels (stripComments b) (initState cur) with ⟨st1, e1⟩
  rcases h2 : processReleaseNotes (stripComments b) st1 with ⟨st2, e2⟩
  have hm1 : st1.currentMap = cur := by
    have h := processKindLabels_currentMap (stripComments b) (initState cur)
    rw [h1] at h; exact h
  have hR2 : L ∈ st2.labelsToRemove ↔
      L ∈ st1.labelsToRemove ∨
      (L ∈ deprecatedReleaseNoteLabel :: rnOthers (rnClass (stripComments b)) ∧
        L ∈ st1.currentMap) := by
    have h := mem_toRemove_processReleaseNotes (stripComments b) st1 L
    rw [h2] at h; exact h
  have hR1 : L ∈ st1.labelsToRemove ↔
      (kindErrOf (extractKinds (stripComments b)) = none ∧
        ((L = invalidKindLabel ∧ invalidKindLabel ∈ cur) ∨
         (L ∈ cur ∧ kindNS <+: L ∧
           staleKindCond (extractKinds (stripComments b)) (L.drop 5) = true))) := by
    have h := mem_toRemove_processKindLabels (stripComments b) (initState cur) L
    rw [h1] at h
    simpa [initState] using h
  dsimp only
  rw [hR2, hR1, hm1]

/-! ### Facts about the concrete label constants -/

theorem invalidKind_no_kindNS : ¬ kindNS <+: invalidKindLabel := by decide

theorem rnTarget_no_kindNS (c : RNClass) : ¬ kindNS <+: rnTarget c := by
  cases c <;> decide

theorem rnFamily_no_kindNS (c : RNClass) (L : Str)
    (h : L ∈ deprecatedReleaseNoteLabel :: rnOthers c) : ¬ kindNS <+: L := by
  cases c <;> simp only [rnOthers, List.mem_cons, List.not_mem_nil, or_false]
    at h <;> rcases h with rfl | rfl | rfl <;> decide

theorem rnTarget_ne_invalidKind (c : RNClass) : rnTarget c ≠ invalidKindLabel := by
  cases c <;> decide

theorem supported_not_deprecated (k : Str) (h : supportedKinds k = true) :
    deprecatedKindMap k = none := by
  have hm : k ∈ supportedKindsList := by
    simpa [supportedKinds, List.contains] using h
  fin_cases hm <;> decide

/-! ### The toAdd/toRemove invariants of one pass -/

theorem toAdd_not_in_snapshot (b : Str) (cur : Finset Str) (L : Str)
    (h : L ∈ ((processPRCore b cur).1).labelsToAdd) : L ∉ cur := by
  rw [mem_toAdd_processPRCore] at h
  rcases h with ⟨_, rfl, hc⟩ | ⟨_, k, _, hc, rfl⟩ | ⟨rfl, hc⟩ <;> exact hc

theorem toRemove_in_snapshot (b : Str) (cur : Finset Str) (L : Str)
    (h : L ∈ ((processPRCore b cur).1).labelsToRemove) : L ∈ cur := by
  rw [mem_toRemove_processPRCore] at h
  rcases h with ⟨_, ⟨rfl, hc⟩ | ⟨hc, _, _⟩⟩ | ⟨_, hc⟩ <;> exact hc

theorem kindErrOf_none_iff (ks : List Str) :
    kindErrOf ks = none ↔ ks ≠ [] ∧ ∀ k ∈ ks, supportedKinds k = true := by
  unfold kindErrOf
  split
  · simp_all
  · simp_all [List.find?_eq_none]

theorem kindNS_decomp (L : Str) (h : kindNS <+: L) : L = kindNS ++ L.drop 5 := by
  obtain ⟨t, rfl⟩ := h
  have h5 : (kindNS ++ t).drop 5 = t := by
    have hlen : kindNS.length = 5 := rfl
    rw [← hlen, List.drop_left]
  rw [h5]

theorem kindNS_append_drop (k : Str) : (kindNS ++ k).drop 5 = k := by
  have hlen : kindNS.length = 5 := rfl
  rw [← hlen, List.drop_left]

/-- After a pass whose kind validation succeeded, the `kind/` family of
the updated snapshot is exactly the canonical kind set, prefixed. -/
theorem kind_family_after_pass (b : Str) (cur : Finset Str)
    (h : kindErrOf (extractKinds (stripComments b)) = none) :
    ((cur ∪ ((processPRCore b cur).1).labelsToAdd) \
        ((processPRCore b cur).1).labelsToRemove).filter
      (fun L => kindNS <+: L) =
    (extractKinds (stripComments b)).toFinset.image (fun k => kindNS ++ k) := by
  have hsup : ∀ k ∈ extractKinds (stripComments b), supportedKinds k = true :=
    ((kindErrOf_none_iff _).1 h).2
  ext L
  simp only [Finset.mem_filter, Finset.mem_sdiff, Finset.mem_union,
    Finset.mem_image, List.mem_toFinset]
  constructor
  · rintro ⟨⟨hcur | hadd, hnr⟩, hpre⟩
    · refine ⟨L.drop 5, ?_, (kindNS_decomp L hpre).symm⟩
      by_contra hnot
      apply hnr
      rw [mem_toRemove_processPRCore]
      left
      refine ⟨h, Or.inr ⟨hcur, hpre, ?_⟩⟩
      unfold staleKindCond
      rcases hdep : deprecatedKindMap (L.drop 5) with _ | nk
      · simpa using hnot
      · by_cases hnk : nk ∈ extractKinds (stripComments b) <;> simp [hnk, hnot]
    · rw [mem_toAdd_processPRCore] at hadd
      rcases hadd with ⟨hne, _, _⟩ | ⟨_, k, hk, hkc, rfl⟩ | ⟨rfl, _⟩
      · exact absurd h hne
      · exact ⟨k, hk, rfl⟩
      · exact absurd hpre (rnTarget_no_kindNS _)
  · rintro ⟨k, hk, rfl⟩
    have hpre : kindNS <+: kindNS ++ k := ⟨k, rfl⟩
    refine ⟨⟨?_, ?_⟩, hpre⟩
    · by_cases hc : kindNS ++ k ∈ cur
      · exact Or.inl hc
      · right
        rw [mem_toAdd_processPRCore]
        exact Or.inr (Or.inl ⟨h, k, hk, hc, rfl⟩)
    · intro hR
      rw [mem_toRemove_processPRCore] at hR
      rcases hR with ⟨_, ⟨heq, _⟩ | ⟨hcur, _, hstale⟩⟩ | ⟨hfam, hcur⟩
      · exact invalidKind_no_kindNS (heq ▸ hpre)
      · rw [kindNS_append_drop] at hstale
        unfold staleKindCond at hstale
        rw [supported_not_deprecated k (hsup k hk)] at hstale
        simp [hk] at hstale
      · exact rnFamily_no_kindNS _ _ hfam hpre

/-- C6: in one reconciliation pass, no label is both added and removed,
every removed label is in the snapshot, and every added label is not. -/
theorem C6_add_remove_exclusive (body : Str) (cur : Finset Str) :
    ((processPRCore body cur).1).labelsToAdd ∩
      ((processPRCore body cur).1).labelsToRemove = ∅ ∧
    ((processPRCore body cur).1).labelsToRemove ⊆ cur ∧
    ((processPRCore body cur).1).labelsToAdd ∩ cur = ∅ := by
  refine ⟨?_, ?_, ?_⟩
  · ext L
    simp only [Finset.mem_inter, Finset.not_mem_empty, iff_false, not_and]
    intro hA hR
    exact toAdd_not_in_snapshot body cur L hA (toRemove_in_snapshot body cur L hR)
  · intro L hR
    exact toRemove_in_snapshot body cur L hR
  · ext L
    simp only [Finset.mem_inter, Finset.not_mem_empty, iff_false, not_and]
    intro hA hc
    exact toAdd_not_in_snapshot body cur L hA hc

/-! ### Membership in the extracted kind set -/

theorem mem_addOnce (l : List Str) (y x : Str) :
    x ∈ addOnce l y ↔ x ∈ l ∨ x = y := by
  unfold addOnce
  split_ifs with h
  · constructor
    · exact Or.inl
    · rintro (hx | rfl) <;> assumption
  · simp [List.mem_append]

theorem addKind_eq (acc : List Str) (raw : Str) :
    addKind acc raw = addOnce acc (canonKind (lowerStr raw)) := by
  unfold addKind canonKind
  rcases h : deprecatedKindMap (lowerStr raw) with _ | nk <;> simp [h]

theorem mem_foldl_addKind (toks : List Str) (acc : List Str) (x : Str) :
    x ∈ toks.foldl addKind acc ↔
      x ∈ acc ∨ ∃ raw ∈ toks, x = canonKind (lowerStr raw) := by
  induction toks generalizing acc with
  | nil => simp
  | cons t ts ih =>
    rw [List.foldl_cons, ih, addKind_eq, mem_addOnce]
    simp only [List.mem_cons]
    constructor
    · rintro ((hx | rfl) | ⟨raw, hraw, rfl⟩)
      · exact Or.inl hx
      · exact Or.inr ⟨t, Or.inl rfl, rfl⟩
      · exact Or.inr ⟨raw, Or.inr hraw, rfl⟩
    · rintro (hx | ⟨raw, rfl | hraw, rfl⟩)
      · exact Or.inl (Or.inl hx)
      · exact Or.inl (Or.inr rfl)
      · exact Or.inr ⟨raw, hraw, rfl⟩

theorem mem_extractKinds (body : Str) (x : Str) :
    x ∈ extractKinds body ↔
      ∃ raw ∈ kindTokens body, x = canonKind (lowerStr raw) := by
  unfold extractKinds
  rw [mem_foldl_addKind]
  simp

theorem deprecatedKindMap_canonKind (k : Str) :
    deprecatedKindMap (canonKind k) = none := by
  unfold canonKind
  rcases h : deprecatedKindMap k with _ | nk
  · exact h
  · have hnk : nk = str "feature" ∨ nk = str "fix" := by
      unfold deprecatedKindMap at h
      split_ifs at h
      · exact Or.inl (Option.some.inj h).symm
      · exact Or.inr (Option.some.inj h).symm
    dsimp only
    rcases hnk with rfl | rfl <;> decide

theorem extractKinds_not_deprecated (body : Str) (x : Str)
    (hx : x ∈ extractKinds body) : deprecatedKindMap x = none := by
  rw [mem_extractKinds] at hx
  obtain ⟨raw, _, rfl⟩ := hx
  exact deprecatedKindMap_canonKind _

/-- C1: for every PR body whose kind validation succeeds and every
snapshot, applying the computed toAdd/toRemove deltas to the snapshot
yields a set whose `kind/`-prefixed labels are exactly the canonical
kind set prefixed with `kind/`; and if `do-not-merge/kind-invalid` is in
the snapshot it is marked for removal. -/
theorem C1_kind_labels_after_sync (body : Str) (cur : Finset Str)
    (h : (processKindLabels (stripComments body) (initState cur)).2 = none) :
    ((cur ∪ ((processPRCore body cur).1).labelsToAdd) \
        ((processPRCore body cur).1).labelsToRemove).filter
      (fun L => kindNS <+: L) =
    (extractKinds (stripComments body)).toFinset.image (fun k => kindNS ++ k) ∧
    (invalidKindLabel ∈ cur →
      invalidKindLabel ∈ ((processPRCore body cur).1).labelsToRemove) := by
  have hk : kindErrOf (extractKinds (stripComments body)) = none := by
    rw [← processKindLabels_err (stripComments body) (initState cur)]
    exact h
  refine ⟨kind_family_after_pass body cur hk, fun hc => ?_⟩
  rw [mem_toRemove_processPRCore]
  exact Or.inl ⟨hk, Or.inl ⟨rfl, hc⟩⟩

theorem C1_kind_labels_after_sync_witness :
    (processKindLabels (stripComments (str "/kind fix"))
        (initState (∅ : Finset Str))).2 = none ∧
    ((((∅ : Finset Str) ∪
          ((processPRCore (str "/kind fix") ∅).1).labelsToAdd) \
        ((processPRCore (str "/kind fix") ∅).1).labelsToRemove).filter
      (fun L => kindNS <+: L) =
    (extractKinds (stripComments (str "/kind fix"))).toFinset.image
      (fun k => kindNS ++ k) ∧
    (invalidKindLabel ∈ (∅ : Finset Str) →
      invalidKindLabel ∈ ((processPRCore (str "/kind fix") ∅).1).labelsToRemove)) :=
  ⟨by decide, C1_kind_labels_after_sync (str "/kind fix") ∅ (by decide)⟩

/-- C3: kind validation fails exactly when the canonical kind set is
empty or holds an unsupported value; the error is `noKind` exactly when
the set is empty, and otherwise reports the first unsupported value of
the enumeration (a genuinely unsupported one); on failure the invalid
label is marked for addition unless present and no `kind/` label is
marked; the rendered messages carry the documented phrases, the
offending value and the supported-kind list. -/
theorem C3_verify_kinds_errors (body : Str) (cur : Finset Str) :
    ((processKindLabels body (initState cur)).2 ≠ none ↔
      (extractKinds body = [] ∨
        ∃ k ∈ extractKinds body, supportedKinds k = false)) ∧
    ((processKindLabels body (initState cur)).2 = some .noKind ↔
      extractKinds body = []) ∧
    (∀ k, (processKindLabels body (initState cur)).2 = some (.invalidKind k) →
      supportedKinds k = false ∧
      (extractKinds body).find? (fun x => !supportedKinds x) = some k) ∧
    ((processKindLabels body (initState cur)).2 ≠ none →
      (invalidKindLabel ∈ ((processKindLabels body (initState cur)).1).labelsToAdd ↔
        invalidKindLabel ∉ cur) ∧
      (∀ L, kindNS <+: L →
        L ∉ ((processKindLabels body (initState cur)).1).labelsToAdd ∧
        L ∉ ((processKindLabels body (initState cur)).1).labelsToRemove)) ∧
    renderLErr .noKind = str "no /kind labels found, labeling \"do-not-merge/kind-invalid\". supported kinds: [design deprecation feature fix breaking_change documentation cleanup flake]" ∧
    (∀ k, renderLErr (.invalidKind k) =
      str "invalid /kind \"" ++ k ++ str "\" detected, labeling \"do-not-merge/kind-invalid\". supported kinds: [design deprecation feature fix breaking_change documentation cleanup flake]") := by
  rw [processKindLabels_err]
  refine ⟨?_, ?_, ?_, ?_, by decide, ?_⟩
  · unfold kindErrOf
    split
    · simp_all
    · rcases hf : (extractKinds body).find? (fun x => !supportedKinds x) with _ | k
      · rw [List.find?_eq_none] at hf
        simp_all
      · have hk := List.find?_some hf
        have hmem := List.mem_of_find?_eq_some hf
        simp only [Bool.not_eq_true'] at hk
        simp_all
        exact ⟨k, hmem, hk⟩
  · unfold kindErrOf
    split
    · simp_all
    · rcases hf : (extractKinds body).find? (fun x => !supportedKinds x) with _ | k <;>
        simp_all
  · intro k hk
    unfold kindErrOf at hk
    split at hk
    · exact absurd hk (by simp)
    · rcases hf : (extractKinds body).find? (fun x => !supportedKinds x) with _ | k'
      · rw [hf] at hk
        exact absurd hk (by simp)
      · rw [hf] at hk
        have hkk : k' = k := by simpa using hk
        rw [← hkk]
        have hp := List.find?_some hf
        simp only [Bool.not_eq_true'] at hp
        exact ⟨hp, rfl⟩
  · intro hne
    constructor
    · constructor
      · intro hmem
        rw [mem_toAdd_processKindLabels] at hmem
        rcases hmem with hmem | ⟨_, _, hc⟩ | ⟨he, _⟩
        · exact absurd hmem (by simp [initState])
        · exact hc
        · exact absurd he hne
      · intro hc
        rw [mem_toAdd_processKindLabels]
        exact Or.inr (Or.inl ⟨hne, rfl, hc⟩)
    · intro L hL
      constructor
      · intro hmem
        rw [mem_toAdd_processKindLabels] at hmem
        rcases hmem with hmem | ⟨_, rfl, _⟩ | ⟨he, _⟩
        · exact absurd hmem (by simp [initState])
        · exact invalidKind_no_kindNS hL
        · exact hne he
      · intro hmem
        rw [mem_toRemove_processKindLabels] at hmem
        rcases hmem with hmem | ⟨he, _⟩
        · exact absurd hmem (by simp [initState])
        · exact hne he
  · intro k
    unfold renderLErr
    simp only [List.append_assoc]
    congr 1

theorem C3_verify_kinds_errors_witness :
    ((processKindLabels (str "/kind banana") (initState (∅ : Finset Str))).2 ≠ none ↔
      (extractKinds (str "/kind banana") = [] ∨
        ∃ k ∈ extractKinds (str "/kind banana"), supportedKinds k = false)) ∧
    ((processKindLabels (str "/kind banana") (initState (∅ : Finset Str))).2 =
        some .noKind ↔ extractKinds (str "/kind banana") = []) ∧
    (∀ k, (processKindLabels (str "/kind banana") (initState (∅ : Finset Str))).2 =
        some (.invalidKind k) →
      supportedKinds k = false ∧
      (extractKinds (str "/kind banana")).find? (fun x => !supportedKinds x) = some k) ∧
    ((processKindLabels (str "/kind banana") (initState (∅ : Finset Str))).2 ≠ none →
      (invalidKindLabel ∈
          ((processKindLabels (str "/kind banana") (initState (∅ : Finset Str))).1).labelsToAdd ↔
        invalidKindLabel ∉ (∅ : Finset Str)) ∧
      (∀ L, kindNS <+: L →
        L ∉ ((processKindLabels (str "/kind banana") (initState (∅ : Finset Str))).1).labelsToAdd ∧
        L ∉ ((processKindLabels (str "/kind banana") (initState (∅ : Finset Str))).1).labelsToRemove)) ∧
    renderLErr .noKind = str "no /kind labels found, labeling \"do-not-merge/kind-invalid\". supported kinds: [design deprecation feature fix breaking_change documentation cleanup flake]" ∧
    (∀ k, renderLErr (.invalidKind k) =
      str "invalid /kind \"" ++ k ++ str "\" detected, labeling \"do-not-merge/kind-invalid\". supported kinds: [design deprecation feature fix breaking_change documentation cleanup flake]") :=
  C3_verify_kinds_errors (str "/kind banana") ∅

/-- C8: whenever the deprecated `release-note-needed` label is in the
snapshot, release-note processing marks it for removal on every path. -/
theorem C8_deprecated_note_label_removed (body : Str) (st : LState)
    (h : deprecatedReleaseNoteLabel ∈ st.currentMap) :
    deprecatedReleaseNoteLabel ∈
      ((processReleaseNotes body st).1).labelsToRemove := by
  rw [mem_toRemove_processReleaseNotes]
  exact Or.inr ⟨List.mem_cons_self _ _, h⟩

theorem C8_deprecated_note_label_removed_witness :
    deprecatedReleaseNoteLabel ∈
      (initState {deprecatedReleaseNoteLabel}).currentMap ∧
    deprecatedReleaseNoteLabel ∈
      ((processReleaseNotes (str "")
          (initState {deprecatedReleaseNoteLabel})).1).labelsToRemove :=
  ⟨by decide,
   C8_deprecated_note_label_removed (str "")
     (initState {deprecatedReleaseNoteLabel}) (by decide)⟩

/-- C10: the canonical kind set never contains a deprecated kind key,
and on a successful kind validation every snapshot label `kind/<d>` with
`<d>` a deprecated kind key is marked for removal. -/
theorem C10_deprecated_kind_removed (body : Str) (cur : Finset Str) (d : Str)
    (hd : (deprecatedKindMap d).isSome = true) :
    d ∉ extractKinds body ∧
    ((processKindLabels body (initState cur)).2 = none →
      kindNS ++ d ∈ cur →
      kindNS ++ d ∈ ((processKindLabels body (initState cur)).1).labelsToRemove) := by
  constructor
  · intro hmem
    rw [extractKinds_not_deprecated body d hmem] at hd
    simp at hd
  · intro hok hcur
    rw [processKindLabels_err] at hok
    rw [mem_toRemove_processKindLabels]
    simp only [initState, Finset.not_mem_empty, false_or]
    refine ⟨hok, Or.inr ⟨hcur, ⟨d, rfl⟩, ?_⟩⟩
    rw [kindNS_append_drop]
    unfold staleKindCond
    rcases hdep : deprecatedKindMap d with _ | nk
    · rw [hdep] at hd; simp at hd
    · have hdne : d ∉ extractKinds body := by
        intro hmem
        rw [extractKinds_not_deprecated body d hmem] at hdep
        simp at hdep
      by_cases hnk : nk ∈ extractKinds body <;> simp [hnk, hdne]

theorem C10_deprecated_kind_removed_witness :
    (deprecatedKindMap (str "new_feature")).isSome = true ∧
    (str "new_feature" ∉ extractKinds (str "/kind feature") ∧
    ((processKindLabels (str "/kind feature")
        (initState {kindNS ++ str "new_feature"})).2 = none →
      kindNS ++ str "new_feature" ∈ ({kindNS ++ str "new_feature"} : Finset Str) →
      kindNS ++ str "new_feature" ∈
        ((processKindLabels (str "/kind feature")
            (initState {kindNS ++ str "new_feature"})).1).labelsToRemove)) :=
  ⟨by decide,
   C10_deprecated_kind_removed (str "/kind feature")
     {kindNS ++ str "new_feature"} (str "new_feature") (by decide)⟩

/-- C2 counterexample: a fence whose tag merely begins with
`release-note` (here ```release-notes) DOES match `releaseNoteRE`; the
extra tag characters land in the capture, the body is treated as having
a valid non-empty note, and no error is reported. -/
theorem C2_fence_extension_matches :
    releaseNoteCapture (str "```release-notes\nfoo\n```") =
      some (str "s\nfoo") ∧
    (processReleaseNotes (str "```release-notes\nfoo\n```")
        (initState ∅)).2 = none ∧
    releaseNoteLabel ∈
      ((processReleaseNotes (str "```release-notes\nfoo\n```")
          (initState ∅)).1).labelsToAdd := by decide

theorem rnClass_of_missing (body : Str) (h : releaseNoteCapture body = none) :
    rnClass body = .missing := by
  unfold rnClass
  rw [h]

theorem rnClass_of_empty (body : Str) (cap : Str)
    (h : releaseNoteCapture body = some cap) (ht : trimSpace cap = []) :
    rnClass body = .empty := by
  unfold rnClass
  rw [h]
  simp [ht]

theorem rnClass_of_noneEntry (body : Str) (cap : Str)
    (h : releaseNoteCapture body = some cap) (ht : trimSpace cap ≠ [])
    (hn : lowerStr (trimSpace cap) = str "none") :
    rnClass body = .noneEntry := by
  unfold rnClass
  rw [h]
  simp [ht, hn]

theorem rnClass_of_valid (body : Str) (cap : Str)
    (h : releaseNoteCapture body = some cap) (ht : trimSpace cap ≠ [])
    (hn : lowerStr (trimSpace cap) ≠ str "none") :
    rnClass body = .valid := by
  unfold rnClass
  rw [h]
  simp [ht, hn]

/-- The toAdd delta of the release-note phase from a seeded state. -/
theorem rn_deltas (body : Str) (cur : Finset Str) :
    ((processReleaseNotes body (initState cur)).1).labelsToAdd =
      (if rnTarget (rnClass body) ∈ cur then ∅ else {rnTarget (rnClass body)}) ∧
    ((processReleaseNotes body (initState cur)).1).labelsToRemove =
      (deprecatedReleaseNoteLabel :: rnOthers (rnClass body)).toFinset ∩ cur := by
  constructor
  · ext L
    rw [mem_toAdd_processReleaseNotes]
    simp only [initState, Finset.not_mem_empty, false_or]
    by_cases hc : rnTarget (rnClass body) ∈ cur
    · simp only [hc, if_true, Finset.not_mem_empty, iff_false, not_and]
      rintro rfl
      simp [hc]
    · simp only [hc, if_false, Finset.mem_singleton]
      constructor
      · rintro ⟨rfl, _⟩
        rfl
      · rintro rfl
        exact ⟨rfl, hc⟩
  · ext L
    rw [mem_toRemove_processReleaseNotes]
    simp only [initState, Finset.not_mem_empty, false_or, Finset.mem_inter,
      List.mem_toFinset]

/-- C2 (amended): the release-note block is the first fenced block whose
opening fence starts with ```release-note (a longer tag also matches,
its remainder joining the capture); the capture is trimmed; exactly one
terminal state is asserted per pass: absent or trimmed-empty marks the
invalid label for addition unless present, marks the other two family
labels for removal if present and errs; `NONE` (case-insensitive) marks
`release-note-none`; anything else marks `release-note`; in the last two
cases the other two family labels are removed if present and no error is
returned. -/
theorem C2_release_note_states (body : Str) (cur : Finset Str) :
    ((releaseNoteCapture body = none ∨
        (∃ cap, releaseNoteCapture body = some cap ∧ trimSpace cap = [])) →
      (processReleaseNotes body (initState cur)).2 ≠ none ∧
      ((processReleaseNotes body (initState cur)).1).labelsToAdd =
        (if invalidReleaseNoteLabel ∈ cur then ∅ else {invalidReleaseNoteLabel}) ∧
      ((processReleaseNotes body (initState cur)).1).labelsToRemove =
        ({deprecatedReleaseNoteLabel, releaseNoteLabel, releaseNoteNoneLabel} : Finset Str) ∩ cur) ∧
    ((∃ cap, releaseNoteCapture body = some cap ∧ trimSpace cap ≠ [] ∧
        lowerStr (trimSpace cap) = str "none") →
      (processReleaseNotes body (initState cur)).2 = none ∧
      ((processReleaseNotes body (initState cur)).1).labelsToAdd =
        (if releaseNoteNoneLabel ∈ cur then ∅ else {releaseNoteNoneLabel}) ∧
      ((processReleaseNotes body (initState cur)).1).labelsToRemove =
        ({deprecatedReleaseNoteLabel, invalidReleaseNoteLabel, releaseNoteLabel} : Finset Str) ∩ cur) ∧
    ((∃ cap, releaseNoteCapture body = some cap ∧ trimSpace cap ≠ [] ∧
        lowerStr (trimSpace cap) ≠ str "none") →
      (processReleaseNotes body (initState cur)).2 = none ∧
      ((processReleaseNotes body (initState cur)).1).labelsToAdd =
        (if releaseNoteLabel ∈ cur then ∅ else {releaseNoteLabel}) ∧
      ((processReleaseNotes body (initState cur)).1).labelsToRemove =
        ({deprecatedReleaseNoteLabel, invalidReleaseNoteLabel, releaseNoteNoneLabel} : Finset Str) ∩ cur) := by
  obtain ⟨hA, hR⟩ := rn_deltas body cur
  have hset : ∀ a b c : Str, ([a, b, c] : List Str).toFinset =
      ({a, b, c} : Finset Str) := by
    intro a b c
    simp [List.toFinset_cons, List.toFinset_nil]
  refine ⟨?_, ?_, ?_⟩
  · intro hcase
    have hfacts : rnTarget (rnClass body) = invalidReleaseNoteLabel ∧
        rnOthers (rnClass body) = [releaseNoteLabel, releaseNoteNoneLabel] ∧
        rnErrOf (rnClass body) ≠ none := by
      rcases hcase with hnone | ⟨cap, hcap, ht⟩
      · rw [rnClass_of_missing body hnone]
        exact ⟨rfl, rfl, by simp [rnErrOf]⟩
      · rw [rnClass_of_empty body cap hcap ht]
        exact ⟨rfl, rfl, by simp [rnErrOf]⟩
    obtain ⟨h1, h2, h3⟩ := hfacts
    refine ⟨by rw [processReleaseNotes_err]; exact h3, ?_, ?_⟩
    · rw [hA, h1]
    · rw [hR, h2, hset]
  · rintro ⟨cap, hcap, ht, hn⟩
    have hcl := rnClass_of_noneEntry body cap hcap ht hn
    refine ⟨by rw [processReleaseNotes_err, hcl]; rfl, ?_, ?_⟩
    · rw [hA, hcl]
      rfl
    · rw [hR, hcl]
      exact hset _ _ _ ▸ rfl
  · rintro ⟨cap, hcap, ht, hn⟩
    have hcl := rnClass_of_valid body cap hcap ht hn
    refine ⟨by rw [processReleaseNotes_err, hcl]; rfl, ?_, ?_⟩
    · rw [hA, hcl]
      rfl
    · rw [hR, hcl]
      exact hset _ _ _ ▸ rfl

theorem C2_release_note_states_witness :
    ((releaseNoteCapture (str "x") = none ∨
        (∃ cap, releaseNoteCapture (str "x") = some cap ∧ trimSpace cap = [])) →
      (processReleaseNotes (str "x") (initState (∅ : Finset Str))).2 ≠ none ∧
      ((processReleaseNotes (str "x") (initState (∅ : Finset Str))).1).labelsToAdd =
        (if invalidReleaseNoteLabel ∈ (∅ : Finset Str) then ∅ else {invalidReleaseNoteLabel}) ∧
      ((processReleaseNotes (str "x") (initState (∅ : Finset Str))).1).labelsToRemove =
        ({deprecatedReleaseNoteLabel, releaseNoteLabel, releaseNoteNoneLabel} : Finset Str) ∩ ∅) ∧
    ((∃ cap, releaseNoteCapture (str "x") = some cap ∧ trimSpace cap ≠ [] ∧
        lowerStr (trimSpace cap) = str "none") →
      (processReleaseNotes (str "x") (initState (∅ : Finset Str))).2 = none ∧
      ((processReleaseNotes (str "x") (initState (∅ : Finset Str))).1).labelsToAdd =
        (if releaseNoteNoneLabel ∈ (∅ : Finset Str) then ∅ else {releaseNoteNoneLabel}) ∧
      ((processReleaseNotes (str "x") (initState (∅ : Finset Str))).1).labelsToRemove =
        ({deprecatedReleaseNoteLabel, invalidReleaseNoteLabel, releaseNoteLabel} : Finset Str) ∩ ∅) ∧
    ((∃ cap, releaseNoteCapture (str "x") = some cap ∧ trimSpace cap ≠ [] ∧
        lowerStr (trimSpace cap) ≠ str "none") →
      (processReleaseNotes (str "x") (initState (∅ : Finset Str))).2 = none ∧
      ((processReleaseNotes (str "x") (initState (∅ : Finset Str))).1).labelsToAdd =
        (if releaseNoteLabel ∈ (∅ : Finset Str) then ∅ else {releaseNoteLabel}) ∧
      ((processReleaseNotes (str "x") (initState (∅ : Finset Str))).1).labelsToRemove =
        ({deprecatedReleaseNoteLabel, invalidReleaseNoteLabel, releaseNoteNoneLabel} : Finset Str) ∩ ∅) :=
  C2_release_note_states (str "x") ∅

/-! ### The remote sync layer -/

theorem syncLabels_calls (gw : Gateway) (st : LState) :
    (syncLabels gw st).1 =
      RemoteCall.add (sortLabels st.labelsToAdd) ::
        (sortLabels st.labelsToRemove).map RemoteCall.remove := rfl

theorem syncLabels_errs (gw : Gateway) (st : LState) :
    (syncLabels gw st).2 =
      (match gw.addErr (sortLabels st.labelsToAdd) with
        | some msg => [SyncErr.addFailed (sortLabels st.labelsToAdd) msg]
        | none => []) ++
      (sortLabels st.labelsToRemove).filterMap
        (fun label => (gw.removeErr label).map (SyncErr.removeFailed label)) := rfl

theorem mem_addFailed_syncLabels (gw : Gateway) (st : LState) (ls : List Str)
    (msg : Str) :
    SyncErr.addFailed ls msg ∈ (syncLabels gw st).2 ↔
      ls = sortLabels st.labelsToAdd ∧ gw.addErr ls = some msg := by
  rw [syncLabels_errs]
  rcases h : gw.addErr (sortLabels st.labelsToAdd) with _ | m
  · simp only [List.nil_append, List.mem_filterMap, Option.map_eq_some']
    constructor
    · rintro ⟨l, _, a, _, hcontra⟩
      cases hcontra
    · rintro ⟨rfl, hc⟩
      rw [h] at hc
      cases hc
  · simp only [List.mem_append, List.mem_singleton, List.mem_filterMap,
      Option.map_eq_some']
    constructor
    · rintro (heq | ⟨l, _, a, _, hcontra⟩)
      · obtain ⟨rfl, rfl⟩ : ls = sortLabels st.labelsToAdd ∧ msg = m := by
          cases heq; exact ⟨rfl, rfl⟩
        exact ⟨rfl, h⟩
      · cases hcontra
    · rintro ⟨rfl, hc⟩
      rw [h] at hc
      obtain rfl : m = msg := by cases hc; rfl
      exact Or.inl rfl

theorem mem_removeFailed_syncLabels (gw : Gateway) (st : LState) (l : Str)
    (msg : Str) :
    SyncErr.removeFailed l msg ∈ (syncLabels gw st).2 ↔
      l ∈ st.labelsToRemove ∧ gw.removeErr l = some msg := by
  rw [syncLabels_errs]
  rcases h : gw.addErr (sortLabels st.labelsToAdd) with _ | m <;>
    simp only [List.nil_append, List.mem_append, List.mem_singleton,
      List.mem_filterMap, Option.map_eq_some']
  · constructor
    · rintro ⟨l', hl', a, ha, heq⟩
      obtain ⟨rfl, rfl⟩ : l' = l ∧ a = msg := by cases heq; exact ⟨rfl, rfl⟩
      exact ⟨(Finset.mem_sort _).1 hl', ha⟩
    · rintro ⟨hl, hr⟩
      exact ⟨l, (Finset.mem_sort _).2 hl, msg, hr, rfl⟩
  · constructor
    · rintro (hcontra | ⟨l', hl', a, ha, heq⟩)
      · cases hcontra
      · obtain ⟨rfl, rfl⟩ : l' = l ∧ a = msg := by cases heq; exact ⟨rfl, rfl⟩
        exact ⟨(Finset.mem_sort _).1 hl', ha⟩
    · rintro ⟨hl, hr⟩
      exact Or.inr ⟨l, (Finset.mem_sort _).2 hl, msg, hr, rfl⟩

theorem syncLabels_errs_nil (gw : Gateway) (st : LState) :
    (syncLabels gw st).2 = [] ↔
      gw.addErr (sortLabels st.labelsToAdd) = none ∧
      ∀ l ∈ st.labelsToRemove, gw.removeErr l = none := by
  rw [syncLabels_errs]
  rcases h : gw.addErr (sortLabels st.labelsToAdd) with _ | m
  · simp only [List.nil_append, List.filterMap_eq_nil, Option.map_eq_none',
      true_iff, h, true_and]
    constructor
    · intro hall l hl
      exact hall l ((Finset.mem_sort _).2 hl)
    · intro hall l hl
      exact hall l ((Finset.mem_sort _).1 hl)
  · simp [h]

/-- C5: with sync enabled, exactly one add call carries the whole sorted
toAdd batch (even when empty) followed by one remove call per sorted
toRemove element; the calls do not depend on remote outcomes (failures
suppress no later call); the validation errors are both validators'
errors in order; the sync errors are exactly the failed calls, naming
the failed batch or label; the joined error is nil exactly when no
validation error and no remote failure occurred. -/
theorem C5_sync_calls_and_errors (gw : Gateway) (cur : Finset Str) (body : Str) :
    (ProcessPR gw cur body true).2.1 =
      RemoteCall.add (sortLabels ((processPRCore body cur).1).labelsToAdd) ::
        (sortLabels ((processPRCore body cur).1).labelsToRemove).map
          RemoteCall.remove ∧
    List.Sorted (· ≤ ·) (sortLabels ((processPRCore body cur).1).labelsToAdd) ∧
    (sortLabels ((processPRCore body cur).1).labelsToAdd).toFinset =
      ((processPRCore body cur).1).labelsToAdd ∧
    List.Sorted (· ≤ ·) (sortLabels ((processPRCore body cur).1).labelsToRemove) ∧
    (sortLabels ((processPRCore body cur).1).labelsToRemove).toFinset =
      ((processPRCore body cur).1).labelsToRemove ∧
    (∀ gw' : Gateway,
      (ProcessPR gw' cur body true).2.1 = (ProcessPR gw cur body true).2.1) ∧
    (ProcessPR gw cur body true).2.2.1 =
      (kindErrOf (extractKinds (stripComments body))).toList ++
      (rnErrOf (rnClass (stripComments body))).toList ∧
    (∀ ls msg, SyncErr.addFailed ls msg ∈ (ProcessPR gw cur body true).2.2.2 ↔
      ls = sortLabels ((processPRCore body cur).1).labelsToAdd ∧
      gw.addErr ls = some msg) ∧
    (∀ l msg, SyncErr.removeFailed l msg ∈ (ProcessPR gw cur body true).2.2.2 ↔
      l ∈ ((processPRCore body cur).1).labelsToRemove ∧
      gw.removeErr l = some msg) ∧
    ((ProcessPR gw cur body true).2.2.1 = [] ∧
        (ProcessPR gw cur body true).2.2.2 = [] ↔
      kindErrOf (extractKinds (stripComments body)) = none ∧
      rnErrOf (rnClass (stripComments body)) = none ∧
      gw.addErr (sortLabels ((processPRCore body cur).1).labelsToAdd) = none ∧
      ∀ l ∈ ((processPRCore body cur).1).labelsToRemove,
        gw.removeErr l = none) := by
  have hPP : ∀ gw0 : Gateway, ProcessPR gw0 cur body true =
      ((processPRCore body cur).1, (syncLabels gw0 (processPRCore body cur).1).1,
        (processPRCore body cur).2, (syncLabels gw0 (processPRCore body cur).1).2) := by
    intro gw0
    simp only [ProcessPR, if_true]
  rw [hPP gw]
  refine ⟨syncLabels_calls gw _, Finset.sort_sorted _ _, Finset.sort_toFinset _ _,
    Finset.sort_sorted _ _, Finset.sort_toFinset _ _, ?_, processPRCore_errs body cur,
    ?_, ?_, ?_⟩
  · intro gw'
    rw [hPP gw']
    simp only
    rw [syncLabels_calls gw', syncLabels_calls gw]
  · intro ls msg
    simp only
    exact mem_addFailed_syncLabels gw _ ls msg
  · intro l msg
    simp only
    exact mem_removeFailed_syncLabels gw _ l msg
  · simp only
    rw [processPRCore_errs body cur, syncLabels_errs_nil gw, List.append_eq_nil]
    rcases kindErrOf (extractKinds (stripComments body)) with _ | e1 <;>
      rcases rnErrOf (rnClass (stripComments body)) with _ | e2 <;>
        simp [Option.toList] <;> tauto

/-! ### The converged snapshot of a second pass -/

theorem invalidKind_not_rnFamily (c : RNClass) :
    invalidKindLabel ∉ deprecatedReleaseNoteLabel :: rnOthers c := by
  cases c <;> decide

theorem rnTarget_not_rnFamily (c : RNClass) :
    rnTarget c ∉ deprecatedReleaseNoteLabel :: rnOthers c := by
  cases c <;> decide

theorem invalid_in_converged (b : Str) (cur : Finset Str) :
    invalidKindLabel ∈
      (cur ∪ ((processPRCore b cur).1).labelsToAdd) \
        ((processPRCore b cur).1).labelsToRemove ↔
      kindErrOf (extractKinds (stripComments b)) ≠ none := by
  simp only [Finset.mem_sdiff, Finset.mem_union]
  constructor
  · rintro ⟨hin, hnr⟩
    intro hok
    rcases hin with hin | hin
    · apply hnr
      rw [mem_toRemove_processPRCore]
      exact Or.inl ⟨hok, Or.inl ⟨rfl, hin⟩⟩
    · rw [mem_toAdd_processPRCore] at hin
      rcases hin with ⟨hne, _, _⟩ | ⟨_, k, _, _, heq⟩ | ⟨heq, _⟩
      · exact hne hok
      · exact invalidKind_no_kindNS (heq ▸ ⟨k, rfl⟩)
      · exact rnTarget_ne_invalidKind _ heq.symm
  · intro hne
    refine ⟨?_, ?_⟩
    · by_cases hc : invalidKindLabel ∈ cur
      · exact Or.inl hc
      · right
        rw [mem_toAdd_processPRCore]
        exact Or.inl ⟨hne, rfl, hc⟩
    · intro hmem
      rw [mem_toRemove_processPRCore] at hmem
      rcases hmem with ⟨hok, _⟩ | ⟨hfam, _⟩
      · exact hne hok
      · exact invalidKind_not_rnFamily _ hfam

theorem rnTarget_in_converged (b : Str) (cur : Finset Str) :
    rnTarget (rnClass (stripComments b)) ∈
      (cur ∪ ((processPRCore b cur).1).labelsToAdd) \
        ((processPRCore b cur).1).labelsToRemove := by
  simp only [Finset.mem_sdiff, Finset.mem_union]
  refine ⟨?_, ?_⟩
  · by_cases hc : rnTarget (rnClass (stripComments b)) ∈ cur
    · exact Or.inl hc
    · right
      rw [mem_toAdd_processPRCore]
      exact Or.inr (Or.inr ⟨rfl, hc⟩)
  · intro hmem
    rw [mem_toRemove_processPRCore] at hmem
    rcases hmem with ⟨_, ⟨heq, _⟩ | ⟨_, hpre, _⟩⟩ | ⟨hfam, _⟩
    · exact rnTarget_ne_invalidKind _ heq
    · exact rnTarget_no_kindNS _ hpre
    · exact rnTarget_not_rnFamily _ hfam

theorem rnFamily_not_in_converged (b : Str) (cur : Finset Str) (L : Str)
    (hL : L ∈ deprecatedReleaseNoteLabel :: rnOthers (rnClass (stripComments b))) :
    L ∉ (cur ∪ ((processPRCore b cur).1).labelsToAdd) \
        ((processPRCore b cur).1).labelsToRemove := by
  simp only [Finset.mem_sdiff, Finset.mem_union]
  rintro ⟨hin | hin, hnr⟩
  · apply hnr
    rw [mem_toRemove_processPRCore]
    exact Or.inr ⟨hL, hin⟩
  · rw [mem_toAdd_processPRCore] at hin
    rcases hin with ⟨_, rfl, _⟩ | ⟨_, k, _, _, rfl⟩ | ⟨rfl, _⟩
    · exact invalidKind_not_rnFamily _ hL
    · exact rnFamily_no_kindNS _ _ hL ⟨k, rfl⟩
    · exact rnTarget_not_rnFamily _ hL

theorem kind_label_in_converged (b : Str) (cur : Finset Str)
    (hok : kindErrOf (extractKinds (stripComments b)) = none) (L : Str)
    (hpre : kindNS <+: L) :
    L ∈ (cur ∪ ((processPRCore b cur).1).labelsToAdd) \
        ((processPRCore b cur).1).labelsToRemove ↔
      L.drop 5 ∈ extractKinds (stripComments b) := by
  have hfam := kind_family_after_pass b cur hok
  rw [Finset.ext_iff] at hfam
  have h := hfam L
  simp only [Finset.mem_filter, Finset.mem_image, List.mem_toFinset] at h
  constructor
  · intro hmem
    obtain ⟨k, hk, heq⟩ := h.1 ⟨hmem, hpre⟩
    rw [← heq, kindNS_append_drop]
    exact hk
  · intro hd
    exact (h.2 ⟨L.drop 5, hd, (kindNS_decomp L hpre).symm⟩).1

/-- C9: running the pass again on the snapshot updated with the first
pass's deltas produces empty toAdd and toRemove sets. -/
theorem C9_idempotent_on_convergence (body : Str) (cur : Finset Str) :
    ((processPRCore body
        ((cur ∪ ((processPRCore body cur).1).labelsToAdd) \
          ((processPRCore body cur).1).labelsToRemove)).1).labelsToAdd = ∅ ∧
    ((processPRCore body
        ((cur ∪ ((processPRCore body cur).1).labelsToAdd) \
          ((processPRCore body cur).1).labelsToRemove)).1).labelsToRemove = ∅ := by
  constructor
  · ext L
    simp only [Finset.not_mem_empty, iff_false]
    intro hmem
    rw [mem_toAdd_processPRCore] at hmem
    rcases hmem with ⟨hne, rfl, hc⟩ | ⟨hok, k, hk, hc, rfl⟩ | ⟨rfl, hc⟩
    · exact hc ((invalid_in_converged body cur).2 hne)
    · apply hc
      rw [kind_label_in_converged body cur hok (kindNS ++ k) ⟨k, rfl⟩,
        kindNS_append_drop]
      exact hk
    · exact hc (rnTarget_in_converged body cur)
  · ext L
    simp only [Finset.not_mem_empty, iff_false]
    intro hmem
    rw [mem_toRemove_processPRCore] at hmem
    rcases hmem with ⟨hok, ⟨rfl, hc⟩ | ⟨hc, hpre, hstale⟩⟩ | ⟨hfam, hc⟩
    · exact (invalid_in_converged body cur).1 hc hok
    · have hd : L.drop 5 ∈ extractKinds (stripComments body) :=
        (kind_label_in_converged body cur hok L hpre).1 hc
      have hsup : supportedKinds (L.drop 5) = true :=
        ((kindErrOf_none_iff _).1 hok).2 _ hd
      unfold staleKindCond at hstale
      rw [supported_not_deprecated _ hsup] at hstale
      simp [hd] at hstale
    · exact rnFamily_not_in_converged body cur L hfam hc

/-! ### Soundness of the kind scanner -/

theorem takeWhile_drop_length (l : Str) (p : Char → Bool) :
    l.takeWhile p ++ l.drop (l.takeWhile p).length = l := by
  obtain ⟨t, ht⟩ := List.takeWhile_prefix (l := l) p
  calc l.takeWhile p ++ l.drop (l.takeWhile p).length
      = l.takeWhile p ++ ((l.takeWhile p ++ t).drop (l.takeWhile p).length) := by
        rw [ht]
    _ = l.takeWhile p ++ t := by rw [List.drop_left]
    _ = l := ht

theorem matchKindAt_sound (s tok after : Str)
    (h : matchKindAt s = some (tok, after)) :
    ∃ lit ws, s = lit ++ ws ++ tok ++ after ∧
      lowerStr lit = str "/kind" ∧
      ws ≠ [] ∧ (∀ c ∈ ws, goWS c = true) ∧
      tok ≠ [] ∧ (∀ c ∈ tok, isKindTokenChar c = true) := by
  unfold matchKindAt at h
  dsimp only at h
  by_cases h1 : lowerStr (s.take 5) = str "/kind"
  case neg => rw [if_neg h1] at h; exact absurd h (by simp)
  rw [if_pos h1] at h
  by_cases h2 : (s.drop 5).takeWhile goWS = []
  case pos => rw [if_pos h2] at h; exact absurd h (by simp)
  rw [if_neg h2] at h
  by_cases h3 : ((s.drop 5).dropWhile goWS).takeWhile isKindTokenChar = []
  case pos => rw [if_pos h3] at h; exact absurd h (by simp)
  rw [if_neg h3] at h
  have hp := Option.some.inj h
  have htok : tok = ((s.drop 5).dropWhile goWS).takeWhile isKindTokenChar :=
    (congrArg Prod.fst hp).symm
  have hafter : after = ((s.drop 5).dropWhile goWS).drop
      (((s.drop 5).dropWhile goWS).takeWhile isKindTokenChar).length :=
    (congrArg Prod.snd hp).symm
  subst htok hafter
  refine ⟨s.take 5, (s.drop 5).takeWhile goWS, ?_, h1, h2, ?_, h3, ?_⟩
  · conv_lhs => rw [← List.take_append_drop 5 s]
    rw [List.append_assoc, List.append_assoc]
    congr 1
    conv_lhs => rw [← List.takeWhile_append_dropWhile (p := goWS) (l := s.drop 5)]
    congr 1
    rw [takeWhile_drop_length]
  · intro c hc
    exact List.mem_takeWhile_imp hc
  · intro c hc
    exact List.mem_takeWhile_imp hc

theorem matchKindAt_shrinks (s tok after : Str)
    (h : matchKindAt s = some (tok, after)) : after.length < s.length := by
  unfold matchKindAt at h
  dsimp only at h
  by_cases h1 : lowerStr (s.take 5) = str "/kind"
  case neg => rw [if_neg h1] at h; exact absurd h (by simp)
  rw [if_pos h1] at h
  by_cases h2 : (s.drop 5).takeWhile goWS = []
  case pos => rw [if_pos h2] at h; exact absurd h (by simp)
  rw [if_neg h2] at h
  by_cases h3 : ((s.drop 5).dropWhile goWS).takeWhile isKindTokenChar = []
  case pos => rw [if_pos h3] at h; exact absurd h (by simp)
  rw [if_neg h3] at h
  have hafter : after = ((s.drop 5).dropWhile goWS).drop
      (((s.drop 5).dropWhile goWS).takeWhile isKindTokenChar).length :=
    (congrArg Prod.snd (Option.some.inj h)).symm
  subst hafter
  have h5 : 5 ≤ s.length := by
    have hlen := congrArg List.length h1
    have hlit : (str "/kind").length = 5 := rfl
    simp only [lowerStr, List.length_map, List.length_take, hlit] at hlen
    omega
  have hu : ((s.drop 5).dropWhile goWS).length ≤ (s.drop 5).length :=
    (List.dropWhile_sublist _).length_le
  have htok : 0 < (((s.drop 5).dropWhile goWS).takeWhile isKindTokenChar).length :=
    List.length_pos.2 h3
  have hdl := List.length_drop 5 s
  rw [List.length_drop]
  omega

theorem kindScan_sound (fuel : Nat) : ∀ (s : Str) (b : Bool) (t : Str),
    t ∈ kindScan fuel s b →
    ∃ pre lit ws tok suf, s = pre ++ lit ++ ws ++ tok ++ suf ∧
      ((pre = [] ∧ b = true) ∨ ∃ pre', pre = pre' ++ ['\n']) ∧
      lowerStr lit = str "/kind" ∧ ws ≠ [] ∧ (∀ c ∈ ws, goWS c = true) ∧
      tok ≠ [] ∧ (∀ c ∈ tok, isKindTokenChar c = true) ∧ t = tok := by
  induction fuel with
  | zero =>
    intro s b t h
    simp [kindScan] at h
  | succ n ih =>
    intro s b t h
    match s with
    | [] => simp [kindScan] at h
    | c :: rest =>
      rw [kindScan] at h
      by_cases hb : b = true
      · rw [if_pos hb] at h
        rcases hm : matchKindAt (c :: rest) with _ | ⟨tok0, after⟩
        · rw [hm] at h
          obtain ⟨pre, lit, ws, tok, suf, hs, hpre, hrest⟩ := ih rest (c = '\n') t h
          refine ⟨c :: pre, lit, ws, tok, suf, by simp [hs], ?_, hrest⟩
          rcases hpre with ⟨rfl, hc⟩ | ⟨pre', rfl⟩
          · simp only [decide_eq_true_eq] at hc
            exact Or.inr ⟨[], by simp [hc]⟩
          · exact Or.inr ⟨c :: pre', by simp⟩
        · rw [hm] at h
          rcases List.mem_cons.1 h with rfl | h
          · obtain ⟨lit, ws, hs, hl, hw, hwall, ht, htall⟩ := matchKindAt_sound _ _ _ hm
            exact ⟨[], lit, ws, t, after, by simpa using hs,
              Or.inl ⟨rfl, hb⟩, hl, hw, hwall, ht, htall, rfl⟩
          · obtain ⟨pre, lit, ws, tok, suf, hs, hpre, hl, hw, hwall, ht, htall, htt⟩ :=
              ih after false t h
            obtain ⟨lit0, ws0, hs0, _, _, _, ht0, htall0⟩ := matchKindAt_sound _ _ _ hm
            rcases hpre with ⟨rfl, hfalse⟩ | ⟨pre', rfl⟩
            · cases hfalse
            · refine ⟨lit0 ++ ws0 ++ tok0 ++ pre' ++ ['\n'], lit, ws, tok, suf, ?_, ?_,
                hl, hw, hwall, ht, htall, htt⟩
              · rw [hs0, hs]
                simp [List.append_assoc]
              · exact Or.inr ⟨lit0 ++ ws0 ++ tok0 ++ pre', by simp [List.append_assoc]⟩
      · rw [if_neg hb] at h
        obtain ⟨pre, lit, ws, tok, suf, hs, hpre, hrest⟩ := ih rest (c = '\n') t h
        refine ⟨c :: pre, lit, ws, tok, suf, by simp [hs], ?_, hrest⟩
        rcases hpre with ⟨rfl, hc⟩ | ⟨pre', rfl⟩
        · simp only [decide_eq_true_eq] at hc
          exact Or.inr ⟨[], by simp [hc]⟩
        · exact Or.inr ⟨c :: pre', by simp⟩

/-- C7 counterexample: a line of two spaces then `/kind fix` yields no
token — the anchor `^/kind` of `kindRE` permits no leading whitespace —
while the claim says it yields `fix`. -/
theorem C7_leading_ws_not_collected :
    extractKinds (str "  /kind fix") = [] := by decide

/-- C7 (amended): every collected token comes from a match anchored at
the start of the body or right after a newline with no leading
whitespace allowed: a case-insensitive `/kind`, at least one whitespace
character (which may span line breaks), then a nonempty token of the
class (letters, digits, underscore, slash, hyphen); each canonical kind
is the lower-cased, deprecated-rewritten token; `/kind` mid-line never
matches; two spaces before `/kind fix` yield nothing, `see /kind fix`
yields nothing, `/kind fix` yields `fix`, and matching is
case-insensitive with the token lower-cased. -/
theorem C7_anchored_extraction :
    (∀ body t, t ∈ kindTokens body →
      ∃ pre lit ws tok suf, body = pre ++ lit ++ ws ++ tok ++ suf ∧
        (pre = [] ∨ ∃ pre', pre = pre' ++ ['\n']) ∧
        lowerStr lit = str "/kind" ∧ ws ≠ [] ∧ (∀ c ∈ ws, goWS c = true) ∧
        tok ≠ [] ∧ (∀ c ∈ tok, isKindTokenChar c = true) ∧ t = tok) ∧
    (∀ body x, x ∈ extractKinds body →
      ∃ raw ∈ kindTokens body, x = canonKind (lowerStr raw)) ∧
    extractKinds (str "  /kind fix") = [] ∧
    extractKinds (str "see /kind fix") = [] ∧
    extractKinds (str "/kind fix") = [str "fix"] ∧
    extractKinds (str "/KIND FIx") = [str "fix"] := by
  refine ⟨?_, ?_, by decide, by decide, by decide, by decide⟩
  · intro body t h
    obtain ⟨pre, lit, ws, tok, suf, hs, hpre, hrest⟩ :=
      kindScan_sound body.length body true t h
    refine ⟨pre, lit, ws, tok, suf, hs, ?_, hrest⟩
    rcases hpre with ⟨hp, _⟩ | hp
    · exact Or.inl hp
    · exact Or.inr hp
  · intro body x h
    exact (mem_extractKinds body x).1 h

/-- C4 evaluated at the failing inputs: `kinds.SupportedKinds` of
`pkg/kinds/kinds.go` holds neither `install` nor `bump`, so a body
declaring `/kind install` fails kind validation with the invalid-kind
label marked and no `kind/install` marked — while the repository's own
tests (`Install_Kind_Label`, `Bump_Kind_Label` in
`internal/labeler/labeler_test.go`) expect both kinds to validate. -/
theorem C4_install_bump_rejected :
    supportedKinds (str "install") = false ∧
    supportedKinds (str "bump") = false ∧
    extractKinds (str "/kind install") = [str "install"] ∧
    (processKindLabels (str "/kind install") (initState ∅)).2 =
      some (.invalidKind (str "install")) ∧
    invalidKindLabel ∈
      ((processKindLabels (str "/kind install") (initState ∅)).1).labelsToAdd ∧
    kindNS ++ str "install" ∉
      ((processKindLabels (str "/kind install") (initState ∅)).1).labelsToAdd ∧
    (processKindLabels (str "/kind bump") (initState ∅)).2 =
      some (.invalidKind (str "bump")) := by decide

end PRKindLabeler
